import Mathlib

/-!
# Shallow embedding of the tracklib2 column decoders

This file embeds, in Lean 4, the decode engine of `tracklib2`
(`src/tracklib2/src/read/decoders.rs`) and the Ruby binding's schema
construction (`src/ruby_tracklib2/src/schema.rs`), and proves the testable
properties of the design document about them.

Bytes are modelled as `Nat` (intended `< 256`); byte buffers as `List Nat`.
A Rust `Result` is modelled by `RResult`, which has a third constructor
`abort` denoting a Rust panic (process abort): the source contains two
reachable panics (`split_at` with an underflowing index, and
`String::from_utf8(..).unwrap()`), and modelling them explicitly is what
lets us reason about whether malformed input can abort the host process.

The presence column view (`PresenceColumnView`, defined in
`presence_column.rs`, outside the provided sources) is modelled as the
`List Bool` of the bound field's presence bits, in row order; its `next()`
is head/tail, returning `none` once exhausted, which is exactly the
forward-only cursor contract the design document gives it.
-/

namespace Tracklib

/-- Error type of the library. `CRC32Error` and `ParseIncompleteError` are
taken verbatim from their construction sites in `decoders.rs`
(`TracklibError::CRC32Error { expected, computed }` and
`TracklibError::ParseIncompleteError { needed: Needed::Unknown }`).
`ParseError` stands for the library error a failed nom parser is converted
into by the `?` operator; the conversion lives in `error.rs`, outside the
provided sources, so the exact variant is a modelling choice — no theorem
below distinguishes it from another parse-failure variant. -/
inductive TracklibError where
  | CRC32Error (expected computed : Nat)
  | ParseIncompleteError
  | ParseError
deriving DecidableEq

/-- A Rust `Result<α, TracklibError>` extended with `abort`, which marks a
panic (process abort) rather than a returned value. -/
inductive RResult (α : Type) where
  | ok : α → RResult α
  | err : TracklibError → RResult α
  | abort : RResult α
deriving DecidableEq

/-! ## nom / nom_leb128 parser primitives

These embed the third-party parsers the decoders call: `le_u8` from
`nom::number::complete`, `leb128_u64` and `leb128_i64` from `nom_leb128`,
and `length_data` from `nom::multi`. Each returns the parsed value together
with the unconsumed remainder of the input. -/

/-- `nom::number::complete::le_u8`: one byte, error on empty input. -/
def le_u8 : List Nat → RResult (Nat × List Nat)
  | [] => .err .ParseError
  | b :: rest => .ok (b, rest)

/-- Worker for unsigned LEB128: `shift` is the bit position of the next
7-bit group, `acc` the value accumulated so far. Fails on input exhausted
mid-varint and on a varint wider than 64 bits. -/
def lebU64Go : List Nat → Nat → Nat → RResult (Nat × List Nat)
  | [], _, _ => .err .ParseError
  | b :: rest, shift, acc =>
    if 64 ≤ shift then .err .ParseError
    else
      let acc2 := acc + b % 128 * 2 ^ shift
      if b < 128 then .ok (acc2, rest)
      else lebU64Go rest (shift + 7) acc2

/-- `nom_leb128::leb128_u64`: unsigned LEB128 64-bit integer. -/
def leb128_u64 (input : List Nat) : RResult (Nat × List Nat) :=
  lebU64Go input 0 0

/-- Worker for signed LEB128. The accumulated magnitude is kept as a `Nat`
and sign-extended from bit 6 of the final byte. -/
def lebI64Go : List Nat → Nat → Nat → RResult (Int × List Nat)
  | [], _, _ => .err .ParseError
  | b :: rest, shift, acc =>
    if 64 ≤ shift then .err .ParseError
    else
      let acc2 := acc + b % 128 * 2 ^ shift
      if b < 128 then
        if 64 ≤ b % 128 ∧ shift + 7 < 64 then
          .ok ((acc2 : Int) - 2 ^ (shift + 7), rest)
        else
          .ok ((acc2 : Int), rest)
      else lebI64Go rest (shift + 7) acc2

/-- `nom_leb128::leb128_i64`: signed (two's-complement) LEB128 64-bit
integer. -/
def leb128_i64 (input : List Nat) : RResult (Int × List Nat) :=
  lebI64Go input 0 0

/-- `nom::multi::length_data(leb128_u64)`: an unsigned LEB128 byte count
followed by that many raw bytes. -/
def length_data (input : List Nat) : RResult (List Nat × List Nat) :=
  match leb128_u64 input with
  | .ok (n, rest) =>
    if rest.length < n then .err .ParseError
    else .ok (rest.take n, rest.drop n)
  | .err e => .err e
  | .abort => .abort

/-- Standard UTF-8 validity (RFC 3629 / Unicode Table 3-7), the predicate
`String::from_utf8` checks: rejects stray continuation bytes, overlong
forms, surrogate code points and code points above U+10FFFF. -/
def utf8Valid : List Nat → Bool
  | [] => true
  | b :: rest =>
    if b ≤ 0x7F then utf8Valid rest
    else if 0xC2 ≤ b ∧ b ≤ 0xDF then
      match rest with
      | c1 :: r => decide (0x80 ≤ c1 ∧ c1 ≤ 0xBF) && utf8Valid r
      | [] => false
    else if b = 0xE0 then
      match rest with
      | c1 :: c2 :: r =>
        decide (0xA0 ≤ c1 ∧ c1 ≤ 0xBF ∧ 0x80 ≤ c2 ∧ c2 ≤ 0xBF) && utf8Valid r
      | _ => false
    else if (0xE1 ≤ b ∧ b ≤ 0xEC) ∨ b = 0xEE ∨ b = 0xEF then
      match rest with
      | c1 :: c2 :: r =>
        decide (0x80 ≤ c1 ∧ c1 ≤ 0xBF ∧ 0x80 ≤ c2 ∧ c2 ≤ 0xBF) && utf8Valid r
      | _ => false
    else if b = 0xED then
      match rest with
      | c1 :: c2 :: r =>
        decide (0x80 ≤ c1 ∧ c1 ≤ 0x9F ∧ 0x80 ≤ c2 ∧ c2 ≤ 0xBF) && utf8Valid r
      | _ => false
    else if b = 0xF0 then
      match rest with
      | c1 :: c2 :: c3 :: r =>
        decide (0x90 ≤ c1 ∧ c1 ≤ 0xBF ∧ 0x80 ≤ c2 ∧ c2 ≤ 0xBF ∧
                0x80 ≤ c3 ∧ c3 ≤ 0xBF) && utf8Valid r
      | _ => false
    else if 0xF1 ≤ b ∧ b ≤ 0xF3 then
      match rest with
      | c1 :: c2 :: c3 :: r =>
        decide (0x80 ≤ c1 ∧ c1 ≤ 0xBF ∧ 0x80 ≤ c2 ∧ c2 ≤ 0xBF ∧
                0x80 ≤ c3 ∧ c3 ≤ 0xBF) && utf8Valid r
      | _ => false
    else if b = 0xF4 then
      match rest with
      | c1 :: c2 :: c3 :: r =>
        decide (0x80 ≤ c1 ∧ c1 ≤ 0x8F ∧ 0x80 ≤ c2 ∧ c2 ≤ 0xBF ∧
                0x80 ≤ c3 ∧ c3 ≤ 0xBF) && utf8Valid r
      | _ => false
    else false

/-! ## CRC-32 primitive

Modelled from the spec: the CRC module (`src/tracklib2/src/read/crc.rs`) is
not among the provided sources. §4.1 of the design document specifies
"computes a CRC-32 over the remaining payload, and compares", and §9 fixes
the parameters "against literal test vectors". The variant below
(polynomial 0x04C11DB7, non-reflected, initial value and final xor
0xFFFFFFFF — commonly called CRC-32/BZIP2) together with a little-endian
trailing checksum word reproduces every literal CRC in the decoder tests:
the §8 vector (`[0x00,0x01,0x02]` ↦ 0x9300784D) and the five column/
presence buffers of `decoders.rs`'s test module. -/

/-- The CRC-32 generator polynomial, msb-first representation. -/
def crcPoly : Nat := 0x04C11DB7

/-- One shift step of the msb-first CRC-32 register (`c < 2^32`). -/
def crcBit (c : Nat) : Nat :=
  if 2 ^ 31 ≤ c then ((c * 2) ^^^ crcPoly) % 2 ^ 32 else c * 2 % 2 ^ 32

/-- Feed one byte into the CRC-32 register: xor it into the top byte, then
shift eight times. -/
def crcByteStep (c b : Nat) : Nat :=
  crcBit (crcBit (crcBit (crcBit (crcBit (crcBit (crcBit (crcBit (c ^^^ b * 2 ^ 24))))))))

/-- CRC-32 of a byte buffer (initial register 0xFFFFFFFF, final complement). -/
def crc32 (data : List Nat) : Nat :=
  data.foldl crcByteStep 0xFFFFFFFF ^^^ 0xFFFFFFFF

/-- The trailing 4-byte checksum word, read little-endian. -/
def le_u32 : List Nat → Nat
  | [b0, b1, b2, b3] => b0 + b1 * 2 ^ 8 + b2 * 2 ^ 16 + b3 * 2 ^ 24
  | _ => 0

/-- `validate_column` from `decoders.rs`: split the trailing 4 checksum
bytes off `data`, CRC the remaining payload and compare. Faithful to the
source, `data.split_at(data.len() - CRC_BYTES)` panics when
`data.len() < 4` (the `usize` subtraction underflows), which the model
records as `abort`. -/
def validate_column (data : List Nat) : RResult (List Nat) :=
  if data.length < 4 then .abort
  else
    let column_data := data.take (data.length - 4)
    let crc_bytes := data.drop (data.length - 4)
    let computed := crc32 column_data
    let expected := le_u32 crc_bytes
    if expected = computed then .ok column_data
    else .err (.CRC32Error expected computed)

/-! ## The decoder family -/

/-- State of `I64Decoder`: the unconsumed validated column payload, the
bound presence view (remaining presence bits), and the running delta
accumulator `prev`. -/
structure I64Decoder where
  data : List Nat
  presence : List Bool
  prev : Int
deriving DecidableEq

/-- `I64Decoder::new`: validate the column, start the accumulator at 0. -/
def I64Decoder.new (data : List Nat) (view : List Bool) : RResult I64Decoder :=
  match validate_column data with
  | .ok column_data => .ok ⟨column_data, view, 0⟩
  | .err e => .err e
  | .abort => .abort

/-- Two's-complement wrap-around into the `i64` range `[-2^63, 2^63)`:
the value `self.prev + value` takes in a release build when the exact sum
leaves the range. -/
def i64Wrap (x : Int) : Int :=
  (x + 2 ^ 63) % 2 ^ 64 - 2 ^ 63

/-- `I64Decoder::decode`: query the presence view; exhausted ⇒
`ParseIncompleteError`, absent ⇒ `Ok(None)` touching neither the payload
cursor nor the accumulator, present ⇒ parse one signed LEB128 delta, add it
to the accumulator and emit the updated total. -/
def I64Decoder.decode (d : I64Decoder) : RResult (Option Int) × I64Decoder :=
  match d.presence with
  | [] => (.err .ParseIncompleteError, d)
  | is_present :: restp =>
    if is_present then
      match leb128_i64 d.data with
      | .ok (value, rest) =>
        let new := i64Wrap (d.prev + value)
        (.ok (some new), ⟨rest, restp, new⟩)
      | .err e => (.err e, { d with presence := restp })
      | .abort => (.abort, { d with presence := restp })
    else
      (.ok none, { d with presence := restp })

/-- State of `BoolDecoder`: unconsumed payload and remaining presence bits. -/
structure BoolDecoder where
  data : List Nat
  presence : List Bool
deriving DecidableEq

/-- `BoolDecoder::new`: validate the column. -/
def BoolDecoder.new (data : List Nat) (view : List Bool) : RResult BoolDecoder :=
  match validate_column data with
  | .ok column_data => .ok ⟨column_data, view⟩
  | .err e => .err e
  | .abort => .abort

/-- `BoolDecoder::decode`: one fixed byte per present row, nonzero = true. -/
def BoolDecoder.decode (d : BoolDecoder) : RResult (Option Bool) × BoolDecoder :=
  match d.presence with
  | [] => (.err .ParseIncompleteError, d)
  | is_present :: restp =>
    if is_present then
      match le_u8 d.data with
      | .ok (value, rest) => (.ok (some (value ≠ 0)), ⟨rest, restp⟩)
      | .err e => (.err e, { d with presence := restp })
      | .abort => (.abort, { d with presence := restp })
    else
      (.ok none, { d with presence := restp })

/-- State of `StringDecoder`: unconsumed payload and remaining presence
bits. Decoded values are kept as their UTF-8 byte lists (`String::from_utf8`
is the identity on the underlying bytes when it succeeds). -/
structure StringDecoder where
  data : List Nat
  presence : List Bool
deriving DecidableEq

/-- `StringDecoder::new`: validate the column. -/
def StringDecoder.new (data : List Nat) (view : List Bool) : RResult StringDecoder :=
  match validate_column data with
  | .ok column_data => .ok ⟨column_data, view⟩
  | .err e => .err e
  | .abort => .abort

/-- `StringDecoder::decode`: a LEB128 length then that many raw bytes per
present row. Faithful to the source, the result of `String::from_utf8` is
`unwrap`ped, so invalid UTF-8 bytes panic — modelled as `abort` — instead
of being returned as an error. -/
def StringDecoder.decode (d : StringDecoder) : RResult (Option (List Nat)) × StringDecoder :=
  match d.presence with
  | [] => (.err .ParseIncompleteError, d)
  | is_present :: restp =>
    if is_present then
      match length_data d.data with
      | .ok (string_bytes, rest) =>
        if utf8Valid string_bytes then (.ok (some string_bytes), ⟨rest, restp⟩)
        else (.abort, ⟨rest, restp⟩)
      | .err e => (.err e, { d with presence := restp })
      | .abort => (.abort, { d with presence := restp })
    else
      (.ok none, { d with presence := restp })

/-- Drive an `I64Decoder` through `n` successive `decode()` calls,
collecting each call's result. -/
def I64Decoder.decodeRows : Nat → I64Decoder → List (RResult (Option Int)) × I64Decoder
  | 0, d => ([], d)
  | n + 1, d =>
    let step := d.decode
    let restRun := I64Decoder.decodeRows n step.2
    (step.1 :: restRun.1, restRun.2)

/-- Drive a `BoolDecoder` through `n` successive `decode()` calls,
collecting each call's result. -/
def BoolDecoder.decodeRows : Nat → BoolDecoder → List (RResult (Option Bool)) × BoolDecoder
  | 0, d => ([], d)
  | n + 1, d =>
    let step := d.decode
    let restRun := BoolDecoder.decodeRows n step.2
    (step.1 :: restRun.1, restRun.2)

/-- Drive a `StringDecoder` through `n` successive `decode()` calls,
collecting each call's result. -/
def StringDecoder.decodeRows :
    Nat → StringDecoder → List (RResult (Option (List Nat))) × StringDecoder
  | 0, d => ([], d)
  | n + 1, d =>
    let step := d.decode
    let restRun := StringDecoder.decodeRows n step.2
    (step.1 :: restRun.1, restRun.2)

/-! ## The Ruby binding's schema construction

Embeds `create_schema` from `src/ruby_tracklib2/src/schema.rs`. Ruby values
reaching the binding are modelled by `RubyValue`; a rutie
`try_convert_to::<X>` that fails, and `Array#at` out of range (which
yields `nil` and then fails conversion), raise a host `TypeError`, modelled
as `Except.error`. Raising a Ruby exception (`VM::raise` / a failed
conversion) aborts schema construction at the offending entry, which is
`Except`'s error short-circuit. -/

/-- A Ruby value as the binding sees it: `str` for `RString`, `sym` for
`Symbol`, `int` for `Integer` (its `to_u64` image, a `Nat`), `arr` for
`Array`. -/
inductive RubyValue where
  | str : String → RubyValue
  | sym : String → RubyValue
  | int : Nat → RubyValue
  | arr : List RubyValue → RubyValue

/-- `tracklib2::schema::DataType` (declared in `tracklib2`, outside the
provided sources; the variant list is exactly the one `schema.rs` names). -/
inductive DataType where
  | I64
  | F64 (scale : Nat)
  | U64
  | Bool
  | String
  | BoolArray
  | U64Array
  | ByteArray
deriving DecidableEq

/-- `tracklib2::schema::FieldDefinition`: a field name and its type. -/
structure FieldDefinition where
  name : String
  dataType : DataType
deriving DecidableEq

/-- Modelled from the spec: `tracklib2::schema::Schema` (outside the
provided sources) is "an ordered sequence of FieldDefinition" (§3);
`Schema::with_fields` is the evident constructor. -/
abbrev Schema := List FieldDefinition

/-- The single-quote character (U+0027), used by the unknown-type message. -/
def squote : String := String.mk [Char.ofNat 39]

/-- The message `schema.rs` raises for an unknown type tag:
`format!("Schema Data Type '{val}' unknown")`. -/
def unknownTypeMsg (val : String) : String :=
  "Schema Data Type " ++ squote ++ val ++ squote ++ " unknown"

/-- The message raised when `u8::try_from(scale)` fails: the `Display` of
`TryFromIntError`. -/
def scaleRangeMsg : String := "out of range integral type conversion attempted"

/-- Stands for the message of the host `TypeError` a failed rutie
conversion raises; its exact text lives in rutie, and no theorem below
depends on it. -/
def typeErrorMsg : String := "TypeError"

/-- One schema entry, as the closure inside `create_schema` processes it:
`at(0)` must convert to `RString`, `at(1)` to `Symbol`; the tag is matched
against the eight known names; for `f64`, `at(2)` must convert to `Integer`
and its `to_u64` image must fit in a `u8`. -/
def convertEntry (e : RubyValue) : Except String FieldDefinition :=
  match e with
  | .arr items =>
    match items.get? 0 with
    | some (.str nm) =>
      match items.get? 1 with
      | some (.sym tag) =>
        if tag = "i64" then .ok ⟨nm, .I64⟩
        else if tag = "f64" then
          match items.get? 2 with
          | some (.int scale) =>
            if scale ≤ 255 then .ok ⟨nm, .F64 scale⟩
            else .error scaleRangeMsg
          | _ => .error typeErrorMsg
        else if tag = "u64" then .ok ⟨nm, .U64⟩
        else if tag = "bool" then .ok ⟨nm, .Bool⟩
        else if tag = "string" then .ok ⟨nm, .String⟩
        else if tag = "bool_array" then .ok ⟨nm, .BoolArray⟩
        else if tag = "u64_array" then .ok ⟨nm, .U64Array⟩
        else if tag = "byte_array" then .ok ⟨nm, .ByteArray⟩
        else .error (unknownTypeMsg tag)
      | _ => .error typeErrorMsg
    | _ => .error typeErrorMsg
  | _ => .error typeErrorMsg

/-- `create_schema`: convert every entry in order, stopping at the first
raised exception. -/
def create_schema : List RubyValue → Except String Schema
  | [] => .ok []
  | e :: rest =>
    match convertEntry e with
    | .ok fd =>
      match create_schema rest with
      | .ok fds => .ok (fd :: fds)
      | .error msg => .error msg
    | .error msg => .error msg

/-! ## Claim theorems -/

set_option maxRecDepth 8000

/-- Claim C1: for the I64 decoder bound to the presence view
[present, present, absent, present, present] and the CRC-valid column
`[0x20, 0x42, 0x00, 0x01]` (checksum bytes `0x0C 0x01 0x49 0xA3`), the five
successive `decode()` calls return `Some 32`, `Some (-30)`, `None`,
`Some (-30)`, `Some (-29)` in order; the delta accumulator `prev` starts at
0, is updated only on present rows, and the absent row leaves both the
accumulator and the payload cursor untouched (the third call maps state
`⟨[0x00, 0x01], _, -30⟩` to state `⟨[0x00, 0x01], _, -30⟩`). -/
theorem delta_decode_chain :
    I64Decoder.new [0x20, 0x42, 0x00, 0x01, 0x0C, 0x01, 0x49, 0xA3] [true, true, false, true, true]
      = .ok ⟨[0x20, 0x42, 0x00, 0x01], [true, true, false, true, true], 0⟩ ∧
    I64Decoder.decode ⟨[0x20, 0x42, 0x00, 0x01], [true, true, false, true, true], 0⟩
      = (.ok (some 32), ⟨[0x42, 0x00, 0x01], [true, false, true, true], 32⟩) ∧
    I64Decoder.decode ⟨[0x42, 0x00, 0x01], [true, false, true, true], 32⟩
      = (.ok (some (-30)), ⟨[0x00, 0x01], [false, true, true], -30⟩) ∧
    I64Decoder.decode ⟨[0x00, 0x01], [false, true, true], -30⟩
      = (.ok none, ⟨[0x00, 0x01], [true, true], -30⟩) ∧
    I64Decoder.decode ⟨[0x00, 0x01], [true, true], -30⟩
      = (.ok (some (-30)), ⟨[0x01], [true], -30⟩) ∧
    I64Decoder.decode ⟨[0x01], [true], -30⟩
      = (.ok (some (-29)), ⟨[], [], -29⟩) := by
  decide

/-- Claim C2: the source wraps `String::from_utf8` in `unwrap()`, so a
present row whose length-prefixed bytes are not valid UTF-8 panics (aborts
the process) instead of returning the hard decode error the design
document requires. Witnessed at the CRC-valid column `[0x01, 0xFF]` +
checksum: construction succeeds, the single byte `0xFF` is not valid
UTF-8, and `decode()` reaches the panic, modelled as `abort`. -/
theorem string_invalid_utf8_aborts :
    StringDecoder.new [0x01, 0xFF, 0xEA, 0x1A, 0xA6, 0x9C] [true] = .ok ⟨[0x01, 0xFF], [true]⟩ ∧
    utf8Valid [0xFF] = false ∧
    StringDecoder.decode ⟨[0x01, 0xFF], [true]⟩ = (.abort, ⟨[], []⟩) := by
  decide

/-- Claim C3: the source computes `data.len() - 4` with unchecked `usize`
subtraction inside `validate_column`, so every decoder's constructor panics
(aborts the process) on a buffer shorter than the 4-byte checksum — here
the 3-byte buffer `[0x00, 0x01, 0x02]` — instead of returning the typed
error the design document requires. -/
theorem short_buffer_construction_aborts :
    I64Decoder.new [0x00, 0x01, 0x02] [] = .abort ∧
    BoolDecoder.new [0x00, 0x01, 0x02] [] = .abort ∧
    StringDecoder.new [0x00, 0x01, 0x02] [] = .abort := by
  decide

/-- Claim C4: for every decoder type, a `decode()` call finding the bound
presence view exhausted returns the "rows ran out" error
(`ParseIncompleteError`, the source's
`TracklibError::ParseIncompleteError { needed: Needed::Unknown }`) and
leaves the state unchanged: it neither returns `Ok(None)` nor repeats a
prior value. -/
theorem decode_exhausted_errors (di : I64Decoder) (db : BoolDecoder) (ds : StringDecoder)
    (hi : di.presence = []) (hb : db.presence = []) (hs : ds.presence = []) :
    di.decode = (.err .ParseIncompleteError, di) ∧
    db.decode = (.err .ParseIncompleteError, db) ∧
    ds.decode = (.err .ParseIncompleteError, ds) := by
  refine ⟨?_, ?_, ?_⟩
  · simp [I64Decoder.decode, hi]
  · simp [BoolDecoder.decode, hb]
  · simp [StringDecoder.decode, hs]

/-- Claim C4, witness: `decode_exhausted_errors` applied to concrete
exhausted decoders of all three types. -/
theorem decode_exhausted_errors_witness :
    I64Decoder.decode ⟨[0x07], [], 3⟩ = (.err .ParseIncompleteError, ⟨[0x07], [], 3⟩) ∧
    BoolDecoder.decode ⟨[0x01], []⟩ = (.err .ParseIncompleteError, ⟨[0x01], []⟩) ∧
    StringDecoder.decode ⟨[0x01, 0x52], []⟩ = (.err .ParseIncompleteError, ⟨[0x01, 0x52], []⟩) :=
  decode_exhausted_errors ⟨[0x07], [], 3⟩ ⟨[0x01], []⟩ ⟨[0x01, 0x52], []⟩ rfl rfl rfl

/-- Claim C5: for every decoder type, a row whose presence bit is absent
decodes to `Ok(None)` and consumes nothing: the payload cursor `data` (and,
for I64, the accumulator `prev`) is identical before and after the call;
only the presence view advances. -/
theorem decode_absent_consumes_nothing (di : I64Decoder) (db : BoolDecoder) (ds : StringDecoder)
    (ti tb ts : List Bool)
    (hi : di.presence = false :: ti) (hb : db.presence = false :: tb)
    (hs : ds.presence = false :: ts) :
    di.decode = (.ok none, ⟨di.data, ti, di.prev⟩) ∧
    db.decode = (.ok none, ⟨db.data, tb⟩) ∧
    ds.decode = (.ok none, ⟨ds.data, ts⟩) := by
  refine ⟨?_, ?_, ?_⟩
  · simp [I64Decoder.decode, hi]
  · simp [BoolDecoder.decode, hb]
  · simp [StringDecoder.decode, hs]

/-- Claim C5, witness: `decode_absent_consumes_nothing` applied to concrete
decoders of all three types with an absent head bit. -/
theorem decode_absent_consumes_nothing_witness :
    I64Decoder.decode ⟨[0x20, 0x42], [false, true], 7⟩
      = (.ok none, ⟨[0x20, 0x42], [true], 7⟩) ∧
    BoolDecoder.decode ⟨[0x01], [false]⟩ = (.ok none, ⟨[0x01], []⟩) ∧
    StringDecoder.decode ⟨[0x01, 0x52], [false, false]⟩
      = (.ok none, ⟨[0x01, 0x52], [false]⟩) :=
  decode_absent_consumes_nothing ⟨[0x20, 0x42], [false, true], 7⟩ ⟨[0x01], [false]⟩
    ⟨[0x01, 0x52], [false, false]⟩ [true] [] [false] rfl rfl rfl

/-- Claim C7: for the String decoder bound to the presence view
[absent, present, present] and the CRC-valid column whose payload is the
length-prefixed sequences `1:"R"` then `3:"ide"` (bytes
`[0x01, 0x52, 0x03, 0x69, 0x64, 0x65]`), the three successive `decode()`
calls return `None`, `Some "R"` (bytes `[0x52]`), `Some "ide"` (bytes
`[0x69, 0x64, 0x65]`) in order. -/
theorem string_decode_chain :
    StringDecoder.new [0x01, 0x52, 0x03, 0x69, 0x64, 0x65, 0x73, 0x91, 0x5A, 0x74]
        [false, true, true]
      = .ok ⟨[0x01, 0x52, 0x03, 0x69, 0x64, 0x65], [false, true, true]⟩ ∧
    StringDecoder.decode ⟨[0x01, 0x52, 0x03, 0x69, 0x64, 0x65], [false, true, true]⟩
      = (.ok none, ⟨[0x01, 0x52, 0x03, 0x69, 0x64, 0x65], [true, true]⟩) ∧
    StringDecoder.decode ⟨[0x01, 0x52, 0x03, 0x69, 0x64, 0x65], [true, true]⟩
      = (.ok (some [0x52]), ⟨[0x03, 0x69, 0x64, 0x65], [true]⟩) ∧
    StringDecoder.decode ⟨[0x03, 0x69, 0x64, 0x65], [true]⟩
      = (.ok (some [0x69, 0x64, 0x65]), ⟨[], []⟩) := by
  decide

/-- Claim C6: for every buffer of at least 4 bytes whose CRC-32 computed
over the payload differs from the trailing little-endian 4-byte checksum,
every decoder's constructor fails with `CRC32Error` carrying both the
expected (stored) and the computed checksum values. -/
theorem crc_mismatch_construction_fails (data : List Nat) (view : List Bool)
    (h4 : 4 ≤ data.length)
    (hne : le_u32 (data.drop (data.length - 4)) ≠ crc32 (data.take (data.length - 4))) :
    I64Decoder.new data view
      = .err (.CRC32Error (le_u32 (data.drop (data.length - 4)))
          (crc32 (data.take (data.length - 4)))) ∧
    BoolDecoder.new data view
      = .err (.CRC32Error (le_u32 (data.drop (data.length - 4)))
          (crc32 (data.take (data.length - 4)))) ∧
    StringDecoder.new data view
      = .err (.CRC32Error (le_u32 (data.drop (data.length - 4)))
          (crc32 (data.take (data.length - 4)))) := by
  have hv : validate_column data
      = .err (.CRC32Error (le_u32 (data.drop (data.length - 4)))
          (crc32 (data.take (data.length - 4)))) := by
    rw [validate_column, if_neg (by omega), if_neg hne]
  refine ⟨?_, ?_, ?_⟩
  · rw [I64Decoder.new, hv]
  · rw [BoolDecoder.new, hv]
  · rw [StringDecoder.new, hv]

/-- Claim C6, witness: `crc_mismatch_construction_fails` at the §8 vector —
payload `[0x00, 0x01, 0x02]` with an all-zero checksum field fails with
expected = 0x00000000 and computed = 0x9300784D. -/
theorem crc_mismatch_construction_fails_witness :
    StringDecoder.new [0x00, 0x01, 0x02, 0x00, 0x00, 0x00, 0x00] [false, true, true]
      = .err (.CRC32Error 0x00000000 0x9300784D) := by
  have h := crc_mismatch_construction_fails [0x00, 0x01, 0x02, 0x00, 0x00, 0x00, 0x00]
    [false, true, true] (by decide) (by decide)
  exact h.2.2.trans (by decide)

/-- Claim C8: schema construction in the Ruby binding fails immediately on
a bad leading entry, with a host-visible error raised before any column
bytes exist in its inputs: an unknown type tag produces the message naming
that tag, and an `f64` whose scale exceeds the `u8` range produces the
out-of-range conversion message. -/
theorem create_schema_rejects_bad_entries (nm tag : String) (scale : Nat)
    (rest : List RubyValue)
    (htag : tag ∉ (["i64", "f64", "u64", "bool", "string",
                    "bool_array", "u64_array", "byte_array"] : List String))
    (hscale : 255 < scale) :
    create_schema (.arr [.str nm, .sym tag] :: rest) = .error (unknownTypeMsg tag) ∧
    create_schema (.arr [.str nm, .sym "f64", .int scale] :: rest) = .error scaleRangeMsg := by
  simp only [List.mem_cons, List.not_mem_nil, or_false, not_or] at htag
  obtain ⟨h1, h2, h3, h4, h5, h6, h7, h8⟩ := htag
  constructor
  · simp [create_schema, convertEntry, h1, h2, h3, h4, h5, h6, h7, h8]
  · simp [create_schema, convertEntry, Nat.not_le.mpr hscale]

/-- Claim C8, witness: `create_schema_rejects_bad_entries` at the unknown
tag `"i32"` and the out-of-range scale 256. -/
theorem create_schema_rejects_bad_entries_witness :
    create_schema [.arr [.str "x", .sym "i32"]] = .error (unknownTypeMsg "i32") ∧
    create_schema [.arr [.str "x", .sym "f64", .int 256]] = .error scaleRangeMsg :=
  create_schema_rejects_bad_entries "x" "i32" 256 [] (by decide) (by decide)

/-- Claim C9: on a present row whose delta parses as `value`, the I64
decoder emits `i64Wrap (prev + value)` — the unchecked (two's-complement
wrap-around) `i64` sum — as a success, with no overflow check: when the
exact sum leaves the `i64` range the wrapped value is returned as
`Ok(Some _)`, never as a typed decode error. -/
theorem i64_add_wraps_unchecked (d : I64Decoder) (tl : List Bool) (value : Int)
    (rest : List Nat)
    (hp : d.presence = true :: tl) (hparse : leb128_i64 d.data = .ok (value, rest)) :
    d.decode = (.ok (some (i64Wrap (d.prev + value))), ⟨rest, tl, i64Wrap (d.prev + value)⟩) := by
  simp [I64Decoder.decode, hp, hparse]

/-- Claim C9, witness: `i64_add_wraps_unchecked` at accumulator
`2^63 - 1` (the largest `i64`) and delta 1: the exact sum `2^63` is out of
range, and `decode()` returns `Ok(Some (-2^63))`, the wrapped value, not an
error. -/
theorem i64_add_wraps_unchecked_witness :
    (2 ^ 63 : Int) ≤ (2 ^ 63 - 1) + 1 ∧
    I64Decoder.decode ⟨[0x01], [true], 2 ^ 63 - 1⟩
      = (.ok (some (-(2 ^ 63))), ⟨[], [], -(2 ^ 63)⟩) := by
  refine ⟨by norm_num, ?_⟩
  have h := i64_add_wraps_unchecked ⟨[0x01], [true], 2 ^ 63 - 1⟩ [] 1 [] rfl (by decide)
  exact h.trans (by norm_num [i64Wrap])

/-- A successful signed-LEB128 parse only looks at the bytes it consumes:
appending `ex` to the input leaves the parsed value unchanged and appends
`ex` to the remainder. -/
theorem lebI64Go_append (bs ex : List Nat) (shift acc : Nat) (v : Int) (rest : List Nat)
    (h : lebI64Go bs shift acc = .ok (v, rest)) :
    lebI64Go (bs ++ ex) shift acc = .ok (v, rest ++ ex) := by
  induction bs generalizing shift acc with
  | nil => simp [lebI64Go] at h
  | cons b tl ih =>
    simp only [List.cons_append, lebI64Go] at h ⊢
    by_cases h64 : 64 ≤ shift
    · rw [if_pos h64] at h
      exact absurd h (by simp)
    · rw [if_neg h64] at h ⊢
      by_cases hb : b < 128
      · rw [if_pos hb] at h ⊢
        by_cases hs : 64 ≤ b % 128 ∧ shift + 7 < 64
        · rw [if_pos hs] at h ⊢
          injection h with h1
          injection h1 with hv hrest
          subst hv
          subst hrest
          rfl
        · rw [if_neg hs] at h ⊢
          injection h with h1
          injection h1 with hv hrest
          subst hv
          subst hrest
          rfl
      · rw [if_neg hb] at h ⊢
        exact ih (shift + 7) (acc + b % 128 * 2 ^ shift) h

/-- After any `decode()` call, the I64 decoder's presence view has advanced
by exactly one bit, in every branch of the call. -/
theorem i64Decode_presence_tail (data : List Nat) (p : Bool) (tl : List Bool) (prev : Int) :
    ((I64Decoder.decode ⟨data, p :: tl, prev⟩).2).presence = tl := by
  cases p with
  | false => simp [I64Decoder.decode]
  | true =>
    rcases hleb : leb128_i64 data with pv | e | _
    · rcases pv with ⟨v, rest⟩
      simp [I64Decoder.decode, hleb]
    · simp [I64Decoder.decode, hleb]
    · simp [I64Decoder.decode, hleb]

/-- A successful `decode()` call never looks at payload bytes beyond those
it consumes: appending `ex` to the payload yields the same value, with `ex`
appended to the remaining payload. -/
theorem i64Decode_append (data ex : List Nat) (pres : List Bool) (prev : Int)
    (r : Option Int) (d2 : I64Decoder)
    (h : I64Decoder.decode ⟨data, pres, prev⟩ = (.ok r, d2)) :
    I64Decoder.decode ⟨data ++ ex, pres, prev⟩
      = (.ok r, ⟨d2.data ++ ex, d2.presence, d2.prev⟩) := by
  cases pres with
  | nil => simp [I64Decoder.decode] at h
  | cons p tl =>
    cases p with
    | false =>
      simp only [I64Decoder.decode, if_neg (by simp : ¬(false = true))] at h ⊢
      obtain ⟨hr, hd⟩ := Prod.mk.injEq .. ▸ h
      subst hd
      simp [← hr]
    | true =>
      rcases hleb : leb128_i64 data with pv | e | _
      · rcases pv with ⟨v, rest⟩
        have hleb2 : leb128_i64 (data ++ ex) = .ok (v, rest ++ ex) :=
          lebI64Go_append data ex 0 0 v rest hleb
        simp only [I64Decoder.decode, if_pos rfl, hleb, hleb2] at h ⊢
        obtain ⟨hr, hd⟩ := Prod.mk.injEq .. ▸ h
        subst hd
        simp [← hr]
      · simp [I64Decoder.decode, hleb] at h
      · simp [I64Decoder.decode, hleb] at h

/-- Driving the I64 decoder through exactly the presence view's row count
with `ex` surplus bytes appended to the payload returns the same
(all-successful) per-row results, the view ends exhausted, and the surplus
bytes sit unread in the final state. -/
theorem i64Rows_append (pres : List Bool) (data ex : List Nat) (prev : Int)
    (results : List (RResult (Option Int))) (dfin : I64Decoder)
    (h : I64Decoder.decodeRows pres.length ⟨data, pres, prev⟩ = (results, dfin))
    (hok : ∀ r ∈ results, ∃ v, r = .ok v) :
    I64Decoder.decodeRows pres.length ⟨data ++ ex, pres, prev⟩
      = (results, ⟨dfin.data ++ ex, dfin.presence, dfin.prev⟩) ∧
    dfin.presence = [] := by
  induction pres generalizing data prev results with
  | nil =>
    simp only [List.length_nil, I64Decoder.decodeRows] at h
    obtain ⟨hr, hd⟩ := Prod.mk.injEq .. ▸ h
    subst hd
    simp [I64Decoder.decodeRows, ← hr]
  | cons p tl ih =>
    simp only [List.length_cons, I64Decoder.decodeRows] at h ⊢
    rcases hstep : I64Decoder.decode ⟨data, p :: tl, prev⟩ with ⟨r0, d1⟩
    rcases hrun : I64Decoder.decodeRows tl.length d1 with ⟨rs, dmid⟩
    rw [hstep] at h
    simp only [hrun] at h
    obtain ⟨hr, hd⟩ := Prod.mk.injEq .. ▸ h
    subst hd
    subst hr
    obtain ⟨v0, hv0⟩ := hok r0 (List.mem_cons_self r0 rs)
    subst hv0
    have hpres : d1.presence = tl := by
      have hp := i64Decode_presence_tail data p tl prev
      rw [hstep] at hp
      exact hp
    have happ := i64Decode_append data ex (p :: tl) prev v0 d1 hstep
    have hd1 : (⟨d1.data, tl, d1.prev⟩ : I64Decoder) = d1 := by
      rw [← hpres]
    have ihres := ih d1.data d1.prev rs (by rw [hd1]; exact hrun)
      (fun r hr => hok r (List.mem_cons_of_mem _ hr))
    simp only [happ, hpres, ihres.1]
    exact ⟨trivial, ihres.2⟩

/-- A successful unsigned-LEB128 parse only looks at the bytes it consumes:
appending `ex` to the input leaves the parsed value unchanged and appends
`ex` to the remainder. -/
theorem lebU64Go_append (bs ex : List Nat) (shift acc : Nat) (v : Nat) (rest : List Nat)
    (h : lebU64Go bs shift acc = .ok (v, rest)) :
    lebU64Go (bs ++ ex) shift acc = .ok (v, rest ++ ex) := by
  induction bs generalizing shift acc with
  | nil => simp [lebU64Go] at h
  | cons b tl ih =>
    simp only [List.cons_append, lebU64Go] at h ⊢
    by_cases h64 : 64 ≤ shift
    · rw [if_pos h64] at h
      exact absurd h (by simp)
    · rw [if_neg h64] at h ⊢
      by_cases hb : b < 128
      · rw [if_pos hb] at h ⊢
        injection h with h1
        injection h1 with hv hrest
        subst hv
        subst hrest
        rfl
      · rw [if_neg hb] at h ⊢
        exact ih (shift + 7) (acc + b % 128 * 2 ^ shift) h

/-- A successful `le_u8` parse only looks at the byte it consumes. -/
theorem le_u8_append (bs ex : List Nat) (v : Nat) (rest : List Nat)
    (h : le_u8 bs = .ok (v, rest)) :
    le_u8 (bs ++ ex) = .ok (v, rest ++ ex) := by
  cases bs with
  | nil => simp [le_u8] at h
  | cons b tl =>
    simp only [List.cons_append, le_u8] at h ⊢
    injection h with h1
    injection h1 with hv hrest
    subst hv
    subst hrest
    rfl

/-- A successful length-prefixed parse only looks at the bytes it consumes:
appending `ex` to the input leaves the extracted byte run unchanged and
appends `ex` to the remainder. -/
theorem length_data_append (bs ex : List Nat) (s rest : List Nat)
    (h : length_data bs = .ok (s, rest)) :
    length_data (bs ++ ex) = .ok (s, rest ++ ex) := by
  rcases hleb : leb128_u64 bs with pv | e | _
  · rcases pv with ⟨n, r⟩
    have hleb2 : leb128_u64 (bs ++ ex) = .ok (n, r ++ ex) :=
      lebU64Go_append bs ex 0 0 n r hleb
    simp only [length_data, hleb, hleb2] at h ⊢
    by_cases hlen : r.length < n
    · rw [if_pos hlen] at h
      exact absurd h (by simp)
    · rw [if_neg hlen] at h
      rw [if_neg (by simp only [List.length_append]; omega)]
      injection h with h1
      injection h1 with hs hrest
      subst hs
      subst hrest
      rw [List.take_append_of_le_length (by omega), List.drop_append_of_le_length (by omega)]
  · simp [length_data, hleb] at h
  · simp [length_data, hleb] at h

/-- After any `decode()` call, the Bool decoder's presence view has
advanced by exactly one bit, in every branch of the call. -/
theorem boolDecode_presence_tail (data : List Nat) (p : Bool) (tl : List Bool) :
    ((BoolDecoder.decode ⟨data, p :: tl⟩).2).presence = tl := by
  cases p with
  | false => simp [BoolDecoder.decode]
  | true =>
    rcases hleb : le_u8 data with pv | e | _
    · rcases pv with ⟨v, rest⟩
      simp [BoolDecoder.decode, hleb]
    · simp [BoolDecoder.decode, hleb]
    · simp [BoolDecoder.decode, hleb]

/-- After any `decode()` call, the String decoder's presence view has
advanced by exactly one bit, in every branch of the call. -/
theorem stringDecode_presence_tail (data : List Nat) (p : Bool) (tl : List Bool) :
    ((StringDecoder.decode ⟨data, p :: tl⟩).2).presence = tl := by
  cases p with
  | false => simp [StringDecoder.decode]
  | true =>
    rcases hld : length_data data with pv | e | _
    · rcases pv with ⟨sb, rest⟩
      by_cases hu : utf8Valid sb
      · simp [StringDecoder.decode, hld, hu]
      · simp [StringDecoder.decode, hld, hu]
    · simp [StringDecoder.decode, hld]
    · simp [StringDecoder.decode, hld]

/-- A successful Bool `decode()` call never looks at payload bytes beyond
those it consumes. -/
theorem boolDecode_append (data ex : List Nat) (pres : List Bool)
    (r : Option Bool) (d2 : BoolDecoder)
    (h : BoolDecoder.decode ⟨data, pres⟩ = (.ok r, d2)) :
    BoolDecoder.decode ⟨data ++ ex, pres⟩ = (.ok r, ⟨d2.data ++ ex, d2.presence⟩) := by
  cases pres with
  | nil => simp [BoolDecoder.decode] at h
  | cons p tl =>
    cases p with
    | false =>
      simp only [BoolDecoder.decode, if_neg (by simp : ¬(false = true))] at h ⊢
      obtain ⟨hr, hd⟩ := Prod.mk.injEq .. ▸ h
      subst hd
      simp [← hr]
    | true =>
      rcases hleb : le_u8 data with pv | e | _
      · rcases pv with ⟨v, rest⟩
        have hleb2 : le_u8 (data ++ ex) = .ok (v, rest ++ ex) :=
          le_u8_append data ex v rest hleb
        simp only [BoolDecoder.decode, if_pos rfl, hleb, hleb2] at h ⊢
        obtain ⟨hr, hd⟩ := Prod.mk.injEq .. ▸ h
        subst hd
        simp [← hr]
      · simp [BoolDecoder.decode, hleb] at h
      · simp [BoolDecoder.decode, hleb] at h

/-- A successful String `decode()` call never looks at payload bytes beyond
those it consumes. -/
theorem stringDecode_append (data ex : List Nat) (pres : List Bool)
    (r : Option (List Nat)) (d2 : StringDecoder)
    (h : StringDecoder.decode ⟨data, pres⟩ = (.ok r, d2)) :
    StringDecoder.decode ⟨data ++ ex, pres⟩ = (.ok r, ⟨d2.data ++ ex, d2.presence⟩) := by
  cases pres with
  | nil => simp [StringDecoder.decode] at h
  | cons p tl =>
    cases p with
    | false =>
      simp only [StringDecoder.decode, if_neg (by simp : ¬(false = true))] at h ⊢
      obtain ⟨hr, hd⟩ := Prod.mk.injEq .. ▸ h
      subst hd
      simp [← hr]
    | true =>
      rcases hld : length_data data with pv | e | _
      · rcases pv with ⟨sb, rest⟩
        have hld2 : length_data (data ++ ex) = .ok (sb, rest ++ ex) :=
          length_data_append data ex sb rest hld
        by_cases hu : utf8Valid sb
        · simp only [StringDecoder.decode, if_pos rfl, hld, hld2, if_pos hu] at h ⊢
          obtain ⟨hr, hd⟩ := Prod.mk.injEq .. ▸ h
          subst hd
          simp [← hr]
        · simp only [StringDecoder.decode, if_pos rfl, hld, hld2, if_neg hu] at h ⊢
          exact absurd h (by simp)
      · simp [StringDecoder.decode, hld] at h
      · simp [StringDecoder.decode, hld] at h

/-- Bool analogue of `i64Rows_append`: surplus payload bytes change no
per-row result and end up unread. -/
theorem boolRows_append (pres : List Bool) (data ex : List Nat)
    (results : List (RResult (Option Bool))) (dfin : BoolDecoder)
    (h : BoolDecoder.decodeRows pres.length ⟨data, pres⟩ = (results, dfin))
    (hok : ∀ r ∈ results, ∃ v, r = .ok v) :
    BoolDecoder.decodeRows pres.length ⟨data ++ ex, pres⟩
      = (results, ⟨dfin.data ++ ex, dfin.presence⟩) ∧
    dfin.presence = [] := by
  induction pres generalizing data results with
  | nil =>
    simp only [List.length_nil, BoolDecoder.decodeRows] at h
    obtain ⟨hr, hd⟩ := Prod.mk.injEq .. ▸ h
    subst hd
    simp [BoolDecoder.decodeRows, ← hr]
  | cons p tl ih =>
    simp only [List.length_cons, BoolDecoder.decodeRows] at h ⊢
    rcases hstep : BoolDecoder.decode ⟨data, p :: tl⟩ with ⟨r0, d1⟩
    rcases hrun : BoolDecoder.decodeRows tl.length d1 with ⟨rs, dmid⟩
    rw [hstep] at h
    simp only [hrun] at h
    obtain ⟨hr, hd⟩ := Prod.mk.injEq .. ▸ h
    subst hd
    subst hr
    obtain ⟨v0, hv0⟩ := hok r0 (List.mem_cons_self r0 rs)
    subst hv0
    have hpres : d1.presence = tl := by
      have hp := boolDecode_presence_tail data p tl
      rw [hstep] at hp
      exact hp
    have happ := boolDecode_append data ex (p :: tl) v0 d1 hstep
    have hd1 : (⟨d1.data, tl⟩ : BoolDecoder) = d1 := by
      rw [← hpres]
    have ihres := ih d1.data rs (by rw [hd1]; exact hrun)
      (fun r hr => hok r (List.mem_cons_of_mem _ hr))
    simp only [happ, hpres, ihres.1]
    exact ⟨trivial, ihres.2⟩

/-- String analogue of `i64Rows_append`: surplus payload bytes change no
per-row result and end up unread. -/
theorem stringRows_append (pres : List Bool) (data ex : List Nat)
    (results : List (RResult (Option (List Nat)))) (dfin : StringDecoder)
    (h : StringDecoder.decodeRows pres.length ⟨data, pres⟩ = (results, dfin))
    (hok : ∀ r ∈ results, ∃ v, r = .ok v) :
    StringDecoder.decodeRows pres.length ⟨data ++ ex, pres⟩
      = (results, ⟨dfin.data ++ ex, dfin.presence⟩) ∧
    dfin.presence = [] := by
  induction pres generalizing data results with
  | nil =>
    simp only [List.length_nil, StringDecoder.decodeRows] at h
    obtain ⟨hr, hd⟩ := Prod.mk.injEq .. ▸ h
    subst hd
    simp [StringDecoder.decodeRows, ← hr]
  | cons p tl ih =>
    simp only [List.length_cons, StringDecoder.decodeRows] at h ⊢
    rcases hstep : StringDecoder.decode ⟨data, p :: tl⟩ with ⟨r0, d1⟩
    rcases hrun : StringDecoder.decodeRows tl.length d1 with ⟨rs, dmid⟩
    rw [hstep] at h
    simp only [hrun] at h
    obtain ⟨hr, hd⟩ := Prod.mk.injEq .. ▸ h
    subst hd
    subst hr
    obtain ⟨v0, hv0⟩ := hok r0 (List.mem_cons_self r0 rs)
    subst hv0
    have hpres : d1.presence = tl := by
      have hp := stringDecode_presence_tail data p tl
      rw [hstep] at hp
      exact hp
    have happ := stringDecode_append data ex (p :: tl) v0 d1 hstep
    have hd1 : (⟨d1.data, tl⟩ : StringDecoder) = d1 := by
      rw [← hpres]
    have ihres := ih d1.data rs (by rw [hd1]; exact hrun)
      (fun r hr => hok r (List.mem_cons_of_mem _ hr))
    simp only [happ, hpres, ihres.1]
    exact ⟨trivial, ihres.2⟩

/-- Claim C10: for every decoder type, the decode interface has no
finalization step, so a column payload holding surplus bytes beyond those
the declared rows consume raises no error: driving each decoder through
exactly its presence view's row count with surplus bytes appended to the
payload returns the same (all-successful) per-row results, the view ends
exhausted, and the surplus bytes sit unread in the final state. -/
theorem surplus_payload_ignored
    (pres presB presS : List Bool) (data dataB dataS ex exB exS : List Nat) (prev : Int)
    (results : List (RResult (Option Int))) (resultsB : List (RResult (Option Bool)))
    (resultsS : List (RResult (Option (List Nat))))
    (dfin : I64Decoder) (dfinB : BoolDecoder) (dfinS : StringDecoder)
    (h : I64Decoder.decodeRows pres.length ⟨data, pres, prev⟩ = (results, dfin))
    (hok : ∀ r ∈ results, ∃ v, r = .ok v)
    (hB : BoolDecoder.decodeRows presB.length ⟨dataB, presB⟩ = (resultsB, dfinB))
    (hokB : ∀ r ∈ resultsB, ∃ v, r = .ok v)
    (hS : StringDecoder.decodeRows presS.length ⟨dataS, presS⟩ = (resultsS, dfinS))
    (hokS : ∀ r ∈ resultsS, ∃ v, r = .ok v) :
    (I64Decoder.decodeRows pres.length ⟨data ++ ex, pres, prev⟩
        = (results, ⟨dfin.data ++ ex, dfin.presence, dfin.prev⟩) ∧
      dfin.presence = []) ∧
    (BoolDecoder.decodeRows presB.length ⟨dataB ++ exB, presB⟩
        = (resultsB, ⟨dfinB.data ++ exB, dfinB.presence⟩) ∧
      dfinB.presence = []) ∧
    (StringDecoder.decodeRows presS.length ⟨dataS ++ exS, presS⟩
        = (resultsS, ⟨dfinS.data ++ exS, dfinS.presence⟩) ∧
      dfinS.presence = []) :=
  ⟨i64Rows_append pres data ex prev results dfin h hok,
   boolRows_append presB dataB exB resultsB dfinB hB hokB,
   stringRows_append presS dataS exS resultsS dfinS hS hokS⟩

/-- Claim C10, witness: `surplus_payload_ignored` with one declared row per
decoder type and the surplus byte `0xAB` appended to each payload: every
`decode()` returns its `Ok` value, each view is exhausted, and the surplus
byte remains unread with no error raised. -/
theorem surplus_payload_ignored_witness :
    I64Decoder.decodeRows 1 ⟨[0x05, 0xAB], [true], 0⟩
      = ([.ok (some 5)], ⟨[0xAB], [], 5⟩) ∧
    BoolDecoder.decodeRows 1 ⟨[0x01, 0xAB], [true]⟩
      = ([.ok (some true)], ⟨[0xAB], []⟩) ∧
    StringDecoder.decodeRows 1 ⟨[0x01, 0x52, 0xAB], [true]⟩
      = ([.ok (some [0x52])], ⟨[0xAB], []⟩) := by
  have h := surplus_payload_ignored [true] [true] [true] [0x05] [0x01] [0x01, 0x52]
    [0xAB] [0xAB] [0xAB] 0 [.ok (some 5)] [.ok (some true)] [.ok (some [0x52])]
    ⟨[], [], 5⟩ ⟨[], []⟩ ⟨[], []⟩
    (by decide) (by rintro r hr; rw [List.mem_singleton] at hr; exact ⟨some 5, hr⟩)
    (by decide) (by rintro r hr; rw [List.mem_singleton] at hr; exact ⟨some true, hr⟩)
    (by decide) (by rintro r hr; rw [List.mem_singleton] at hr; exact ⟨some [0x52], hr⟩)
  refine ⟨by simpa using h.1.1, by simpa using h.2.1.1, by simpa using h.2.2.1⟩

end Tracklib
